import Mathlib

set_option maxRecDepth 100000

/-!
Verification development for the pycorsikaio record-framing and
versioned-layout engine.

The embedding follows `corsikaio/io.py` (block iteration, framing
detection, compression sniffing) and `corsikaio/subblocks/event_header.py`
(per-version field tables and the version table).  A byte stream is a
`List Nat` together with a cursor, mirroring a binary file handle with
`read`, `seek` and `tell`.  The generator `iter_blocks` is embedded with
explicit fuel: one unit of fuel per pass through its `while True` loop;
running out of fuel is reported as `Outcome.more` (the loop is still
going), an `IOError` raise as `Outcome.err`.  Both carry the blocks
yielded before that point.
-/

/-- A byte sequence; each entry is one byte. -/
abbrev Bytes := List Nat

/-- Modelled from the spec: `BLOCK_SIZE_BYTES` lives in `corsikaio/constants.py`,
which is not part of the sources at hand.  The spec fixes it as the number of
4-byte numeric elements per block (273) times 4. -/
def BLOCK_SIZE_BYTES : Nat := 273 * 4

/-- `DEFAULT_BUFFER_SIZE = BLOCK_SIZE_BYTES * 100` from io.py. -/
def DEFAULT_BUFFER_SIZE : Nat := BLOCK_SIZE_BYTES * 100

/-- The ASCII bytes of the marker `b'RUNH'`. -/
def RUNH : Bytes := [0x52, 0x55, 0x4E, 0x48]

/-- A binary file handle: the full data and the current cursor. -/
structure Handle where
  data : Bytes
  pos : Nat
deriving DecidableEq

/-- `f.read(n)` for `n ≥ 0`: return up to `n` bytes from the cursor and
advance the cursor by the number of bytes actually returned. -/
def Handle.read (h : Handle) (n : Nat) : Bytes × Handle :=
  let bs := (h.data.drop h.pos).take n
  (bs, ⟨h.data, h.pos + bs.length⟩)

/-- `f.read(n)` for a Python int `n`: a negative size means read to EOF. -/
def Handle.readInt (h : Handle) (n : Int) : Bytes × Handle :=
  if n < 0 then h.read (h.data.length - h.pos) else h.read n.toNat

/-- `f.seek(n)`. -/
def Handle.seek (h : Handle) (n : Nat) : Handle := ⟨h.data, n⟩

/-- `f.tell()`. -/
def Handle.tell (h : Handle) : Nat := h.pos

/-- The little-endian 4-byte encoding of `n % 2^32`, as produced by
`struct.pack` for the record markers. -/
def encodeU32LE (n : Nat) : Bytes :=
  [n % 256, n / 256 % 256, n / 65536 % 256, n / 16777216 % 256]

/-- `RECORD_MARKER.unpack`: decode 4 bytes as a little-endian *signed*
32-bit integer (`struct.Struct('i')`).  Only called on reads of exactly
4 bytes, so other shapes are irrelevant; they decode to 0. -/
def int32LE (d : Bytes) : Int :=
  match d with
  | [a, b, c, e] =>
    let u := a + 256 * b + 65536 * c + 16777216 * e
    if u < 2 ^ 31 then (u : Int) else (u : Int) - 2 ^ 32
  | _ => 0

/-- The slicing loop `for block in range(n_blocks)` of `iter_blocks`:
starting at block index `i` with `n` block indices left, slice
`data[start:stop]`, raise (flag `true`) if a slice is shorter than
`BLOCK_SIZE_BYTES`, else yield it and continue.  Returns the blocks
yielded before any raise, and whether the raise happened. -/
def sliceBlocks (data : Bytes) : Nat → Nat → List Bytes × Bool
  | _, 0 => ([], false)
  | i, n + 1 =>
    let blk := (data.drop (i * BLOCK_SIZE_BYTES)).take BLOCK_SIZE_BYTES
    if blk.length < BLOCK_SIZE_BYTES then ([], true)
    else
      let r := sliceBlocks data (i + 1) n
      (blk :: r.1, r.2)

/-- The expected value of the slicing loop when no slice is short: the
consecutive `BLOCK_SIZE_BYTES`-byte slices of `data` at block indices
`i, i+1, …, i+n-1`. -/
def chunksFrom (data : Bytes) : Nat → Nat → List Bytes
  | _, 0 => []
  | i, n + 1 =>
    (data.drop (i * BLOCK_SIZE_BYTES)).take BLOCK_SIZE_BYTES :: chunksFrom data (i + 1) n

/-- The blocks a record payload contributes: its first
`⌊payload.length / BLOCK_SIZE_BYTES⌋` slices. -/
def payloadChunks (p : Bytes) : List Bytes :=
  chunksFrom p 0 (p.length / BLOCK_SIZE_BYTES)

/-- One pass through the `while True` loop of `iter_blocks`.
`Except.error blks`: the pass raised `IOError` after yielding `blks`.
`Except.ok (blks, buffer_size', h')`: the pass yielded `blks` and the loop
continues with the new buffer size and handle. -/
def loopIter (is_fortran_file : Bool) (buffer_size : Int) (h : Handle) :
    Except (List Bytes) (List Bytes × Int × Handle) :=
  -- for the fortran-chunked output, read the record size
  let pf : Except (List Bytes) (Int × Handle) :=
    if is_fortran_file then
      let rd := h.read 4
      if rd.1.length < 4 then Except.error []
      else Except.ok (int32LE rd.1, rd.2)
    else Except.ok (buffer_size, h)
  match pf with
  | Except.error e => Except.error e
  | Except.ok (bs, h1) =>
    let rd := h1.readInt bs
    let sl := sliceBlocks rd.1 0 (rd.1.length / BLOCK_SIZE_BYTES)
    if sl.2 then Except.error sl.1
    else
      -- read trailing record marker
      let h2 := if is_fortran_file then (rd.2.read 4).2 else rd.2
      Except.ok (sl.1, bs, h2)

/-- Result of running the iteration for a given amount of fuel.
`err blks`: `IOError` was raised after the blocks `blks` were yielded.
`more blks`: the fuel ran out with the loop still running (the loop of
this source has no non-raising exit), after yielding `blks`. -/
inductive Outcome where
  | err (blocks : List Bytes)
  | more (blocks : List Bytes)
deriving DecidableEq

/-- The `while True` loop of `iter_blocks`, driven by fuel. -/
def iterLoop (is_fortran_file : Bool) : Nat → Int → Handle → Outcome
  | 0, _, _ => Outcome.more []
  | fuel + 1, buffer_size, h =>
    match loopIter is_fortran_file buffer_size h with
    | Except.error bl => Outcome.err bl
    | Except.ok (bl, bs2, h2) =>
      match iterLoop is_fortran_file fuel bs2 h2 with
      | Outcome.err rest => Outcome.err (bl ++ rest)
      | Outcome.more rest => Outcome.more (bl ++ rest)

/-- `iter_blocks(f)` from io.py: peek 4 bytes, seek back to 0, treat the
stream as fortran-record-framed unless the 4 bytes are `RUNH`, then loop. -/
def iter_blocks (fuel : Nat) (h : Handle) : Outcome :=
  let rd := h.read 4
  let h1 := rd.2.seek 0
  let is_fortran_file := if rd.1 = RUNH then false else true
  iterLoop is_fortran_file fuel ((DEFAULT_BUFFER_SIZE : Int)) h1

/-- `read_block(f, buffer_size)` from io.py.  With a record size given it
skips the leading 4-byte marker at position 0, skips 8 marker bytes when
the position lands on a record boundary, then reads one block, raising
(`Except.error ()`) on a short read. -/
def read_block (h : Handle) (buffer_size : Option Nat) : Except Unit (Bytes × Handle) :=
  let h1 :=
    match buffer_size with
    | none => h
    | some bs =>
      let pos := h.tell
      let ha := if pos = 0 then h.seek 4 else h
      if (pos + 4) % (bs + 8) = 0 then (ha.read 8).2 else ha
  let rd := h1.read BLOCK_SIZE_BYTES
  if rd.1.length < BLOCK_SIZE_BYTES then Except.error () else Except.ok rd

/-- The behaviour `read_block` is claimed to have, written from the spec's
words: compute the start of the block read — 4 if the position is 0 (skip
the leading marker), position + 8 on a record boundary (skip
trailing+leading markers), the position itself otherwise — then return the
`BLOCK_SIZE_BYTES` bytes there, or a truncation error if fewer are
available. -/
def read_block_spec_model (h : Handle) (record_size : Nat) : Except Unit (Bytes × Handle) :=
  let start :=
    if h.pos = 0 then 4
    else if (h.pos + 4) % (record_size + 8) = 0 then h.pos + 8
    else h.pos
  let blk := (h.data.drop start).take BLOCK_SIZE_BYTES
  if blk.length < BLOCK_SIZE_BYTES then Except.error ()
  else Except.ok (blk, ⟨h.data, start + BLOCK_SIZE_BYTES⟩)

/-- `is_gzip(path)` from io.py: read the first two bytes and test them
against the gzip magic by indexing.  Indexing an absent byte raises
`IndexError`, modelled as `Except.error ()`. -/
def is_gzip (file : Bytes) : Except Unit Bool :=
  let marker_bytes := file.take 2
  match marker_bytes.get? 0 with
  | none => Except.error ()
  | some b0 =>
    if b0 = 0x1f then
      match marker_bytes.get? 1 with
      | none => Except.error ()
      | some b1 => Except.ok (b1 = 0x8b)
    else Except.ok false

/-- `is_zstd(path)` from io.py: compare the first four bytes with the zstd
magic (a `bytes` comparison, which cannot raise). -/
def is_zstd (file : Bytes) : Bool :=
  file.take 4 = [0x28, 0xb5, 0x2f, 0xfd]

/-- The kind of reader `open_compressed` returns. -/
inductive Reader where
  | gzipReader
  | zstdReader
  | plainReader
deriving DecidableEq

/-- `open_compressed(path)` from io.py: dispatch on the sniffed magic. -/
def open_compressed (file : Bytes) : Except Unit Reader :=
  match is_gzip file with
  | Except.error e => Except.error e
  | Except.ok true => Except.ok Reader.gzipReader
  | Except.ok false =>
    if is_zstd file then Except.ok Reader.zstdReader else Except.ok Reader.plainReader

/-- A fortran sequential record as written on disk: 4-byte length marker,
payload, 4-byte length marker again. -/
def encodeRecord (p : Bytes) : Bytes :=
  encodeU32LE p.length ++ p ++ encodeU32LE p.length

/-- A record-framed stream: the records laid back to back. -/
def encodeRecords : List Bytes → Bytes
  | [] => []
  | p :: rs => encodeRecord p ++ encodeRecords rs

/-- Modelled from the spec: `Field` (named `CorsikaField` here because Lean
already uses `Field`) lives in `corsikaio/subblocks/dtypes.py`, which is not
part of the sources at hand.  Per the spec a field descriptor is a 1-based
element position, a name, an element kind (default the 4-byte float `"f4"`)
and an optional shape (`[]` meaning scalar). -/
structure CorsikaField where
  position : Nat
  name : String
  dtype : String := "f4"
  shape : List Nat := []
deriving DecidableEq

/-- The number of 4-byte elements a field occupies: the product of its
shape, or 1 for a scalar. -/
def CorsikaField.count (f : CorsikaField) : Nat := f.shape.prod

/-- A built layout entry: name, byte offset, element count, element kind,
shape. -/
abbrev Dtype := List (String × Nat × Nat × String × List Nat)

/-- Modelled from the spec: `build_dtype` lives in
`corsikaio/subblocks/dtypes.py`, which is not part of the sources at hand.
Per the spec it maps each descriptor, in order, to
(name, byte offset `(position - 1) * 4`, element count, kind, shape). -/
def build_dtype (fields : List CorsikaField) : Dtype :=
  fields.map fun f => (f.name, (f.position - 1) * 4, f.count, f.dtype, f.shape)

/-- Scalar field shorthand: `Field(p, name)` in the source. -/
def fld (p : Nat) (n : String) : CorsikaField := ⟨p, n, "f4", []⟩

/-- Array field shorthand: `Field(p, name, shape=...)` in the source. -/
def fldSh (p : Nat) (n : String) (sh : List Nat) : CorsikaField := ⟨p, n, "f4", sh⟩

/-- `event_header_fields_65` from event_header.py. -/
def event_header_fields_65 : List CorsikaField := [
  ⟨1, "event_header", "S4", []⟩,
  fld 2 "event_number",
  fld 3 "particle_id",
  fld 4 "total_energy",
  fld 5 "starting_altitude",
  fld 6 "first_target_id",
  fld 7 "first_interaction_height",
  fld 8 "momentum_x",
  fld 9 "momentum_y",
  fld 10 "momentum_minus_z",
  fld 11 "zenith",
  fld 12 "azimuth",
  fld 13 "n_random_sequences",
  fldSh (13 + 1) "random_seeds" [10, 3],
  fld 44 "run_number",
  fld 45 "date",
  fld 46 "version",
  fld 47 "n_observation_levels",
  fldSh (47 + 1) "observation_height" [10],
  fld 58 "energy_spectrum_slope",
  fld 59 "energy_min",
  fld 60 "energy_max",
  fld 61 "energy_cutoff_hadrons",
  fld 62 "energy_cutoff_muons",
  fld 63 "energy_cutoff_electrons",
  fld 64 "energy_cutoff_photons",
  fld 65 "nflain",
  fld 66 "nfdif",
  fld 67 "nflpi0",
  fld 68 "nflpif",
  fld 69 "nflche",
  fld 70 "nfragm",
  fld 71 "earth_magnetic_field_x",
  fld 72 "earth_magnetic_field_z",
  fld 73 "egs4_flag",
  fld 74 "nkg_flag",
  fld 75 "low_energy_hadron_model",
  fld 76 "high_energy_hadron_model",
  fld 77 "cerenkov_flag",
  fld 78 "neutrino_flag",
  fld 79 "curved_flag",
  fld 80 "computer",
  fld 81 "theta_min",
  fld 82 "theta_max",
  fld 83 "phi_min",
  fld 84 "phi_max",
  fld 85 "cherenkov_bunch_size",
  fld 86 "n_cherenkov_detectors_x",
  fld 87 "n_cherenkov_detectors_y",
  fld 88 "cherenkov_detector_grid_spacing_x",
  fld 89 "cherenkov_detector_grid_spacing_y",
  fld 90 "cherenkov_detector_length_x",
  fld 91 "cherenkov_detector_length_y",
  fld 92 "cherenkov_output_flag",
  fld 93 "angle_array_x_magnetic_north",
  fld 94 "additional_muon_information_flag",
  fld 95 "egs4_multpliple_scattering_step_length_factor",
  fld 96 "cherenkov_wavelength_min",
  fld 97 "cherenkov_wavelength_max",
  fld 98 "n_reuse",
  fldSh (98 + 1) "reuse_x" [20],
  fldSh (118 + 1) "reuse_y" [20],
  fld 139 "sybill_interaction_flag",
  fld 140 "sybill_cross_section_flag",
  fld 141 "qgsjet_interaction_flag",
  fld 142 "qgsjet_cross_section_flag",
  fld 143 "dpmjet_interaction_flag",
  fld 144 "dpmjet_cross_section_flag",
  fld 145 "venus_nexus_epos_cross_section_flag",
  fld 146 "muon_multiple_scattering_flag",
  fld 147 "nkg_radial_distribution_range",
  fld 148 "energy_fraction_if_thinning_level_hadronic",
  fld 149 "energy_fraction_if_thinning_level_em",
  fld 150 "actual_weight_limit_thinning_hadronic",
  fld 151 "actual_weight_limit_thinning_em",
  fld 152 "max_radius_radial_thinning_cutting",
  fld 153 "viewcone_inner_angle",
  fld 154 "viewcone_outer_angle",
  fld 155 "transition_energy_low_high_energy_model"
]

/-- `event_header_fields_73 = event_header_fields_65 + [...]`. -/
def event_header_fields_73 : List CorsikaField := event_header_fields_65 ++ [
  fld 156 "skimming_incidence_flag",
  fld 157 "horizontal_shower_exis_altitude",
  fld 158 "starting_height",
  fld 159 "explicit_charm_generation_flag",
  fld 160 "electromagnetic_subshower_hadronic_origin_output_flag",
  fld 161 "conex_min_vertical_depth",
  fld 162 "conex_high_energy_treshold_hadrons",
  fld 163 "conex_high_energy_treshold_muons",
  fld 164 "conex_high_energy_treshold_em",
  fld 165 "conex_low_energy_treshold_hadrons",
  fld 166 "conex_low_energy_treshold_muons",
  fld 167 "conex_low_energy_treshold_em",
  fld 168 "observaton_level_curvature_flag",
  fld 169 "conex_weight_limit_thinning_hadronic",
  fld 170 "conex_weight_limit_thinning_em",
  fld 171 "conex_weight_limit_sampling_hadronic",
  fld 172 "conex_weight_limit_sampling_muons",
  fld 173 "conex_weight_limit_sampling_em"
]

/-- `event_header_fields_74 = event_header_fields_73.copy()`. -/
def event_header_fields_74 : List CorsikaField := event_header_fields_73

/-- `event_header_fields_75 = event_header_fields_74 + [...]`. -/
def event_header_fields_75 : List CorsikaField := event_header_fields_74 ++ [
  fld 174 "augerhit_stripes_half_width",
  fld 175 "augerhit_detector_distance",
  fld 176 "augerhit_reserved",
  fld 177 "n_multithin",
  fldSh (177 + 1) "multithin_energy_fraction_hadronic" [6],
  fldSh (183 + 1) "multithin_weight_limit_hadronic" [6],
  fldSh (189 + 1) "multithin_energy_fraction_em" [6],
  fldSh (195 + 1) "multithin_weight_limit_em" [6],
  fldSh (199 + 3) "multithin_random_seeds" [6, 3],
  fld 220 "icecube_energy_threshold",
  fld 221 "icecube_gzip_flag",
  fld 222 "icecube_pipe_flag"
]

/-- `event_header_dtype_65xxx = build_dtype(event_header_fields_65)`. -/
def event_header_dtype_65xxx : Dtype := build_dtype event_header_fields_65

/-- `event_header_dtype_73xxx = build_dtype(event_header_fields_73)`. -/
def event_header_dtype_73xxx : Dtype := build_dtype event_header_fields_73

/-- `event_header_dtype_74xxx = build_dtype(event_header_fields_74)`. -/
def event_header_dtype_74xxx : Dtype := build_dtype event_header_fields_74

/-- `event_header_dtype_75xxx = build_dtype(event_header_fields_75)`. -/
def event_header_dtype_75xxx : Dtype := build_dtype event_header_fields_75

/-- `event_header_dtype_76xxx = build_dtype(event_header_fields_75)`. -/
def event_header_dtype_76xxx : Dtype := build_dtype event_header_fields_75

/-- `event_header_dtype_77xxx = build_dtype(event_header_fields_75)`. -/
def event_header_dtype_77xxx : Dtype := build_dtype event_header_fields_75

/-- The message issued by `warn()` in event_header.py. -/
def warn_message : String :=
  "Version unknown, using event header definition of version 7.7XXX"

/-- Version keys: the float literals `6.5 … 7.7` used as dict keys in the
source; for these one-decimal literals equality of the Python floats agrees
with equality of the rationals, so `ℚ` keys are a faithful model. -/
abbrev VKey := ℚ

/-- The contents of `event_header_types` right after module initialization
(lines 140-146 of event_header.py), as an insertion-ordered association
list.  Note the source binds key `7.7` to `event_header_dtype_76xxx`. -/
def event_header_types_init : List (VKey × Dtype) := [
  (6.5, event_header_dtype_65xxx),
  (7.3, event_header_dtype_73xxx),
  (7.4, event_header_dtype_74xxx),
  (7.5, event_header_dtype_75xxx),
  (7.6, event_header_dtype_76xxx),
  (7.7, event_header_dtype_76xxx)
]

/-- Plain dict lookup (no default): the value bound to `k`, if any. -/
def dictGet (d : List (VKey × Dtype)) (k : VKey) : Option Dtype :=
  match d with
  | [] => none
  | (k', v) :: rest => if k' = k then some v else dictGet rest k

/-- `event_header_types[version]`, with `event_header_types` a
`defaultdict(warn)`: a hit returns the stored layout and leaves the dict
alone; a miss calls `warn()` — which issues one warning and returns
`event_header_dtype_77xxx` — and *inserts* that value under the missing
key (Python `defaultdict.__missing__`).  Returns
(layout, warnings issued, dict afterwards). -/
def eh_types_getitem (d : List (VKey × Dtype)) (k : VKey) :
    Dtype × List String × List (VKey × Dtype) :=
  match dictGet d k with
  | some v => (v, [], d)
  | none => (event_header_dtype_77xxx, [warn_message], d ++ [(k, event_header_dtype_77xxx)])

/-- Two fields occupy disjoint element ranges: one ends (exclusively)
before the other starts. -/
def rangesDisjoint (f g : CorsikaField) : Prop :=
  f.position + f.count ≤ g.position ∨ g.position + g.count ≤ f.position

instance : DecidableRel rangesDisjoint := fun f g =>
  inferInstanceAs (Decidable (f.position + f.count ≤ g.position ∨ g.position + g.count ≤ f.position))

/-- A well-formed descriptor list: all element ranges pairwise disjoint. -/
def disjointFields (l : List CorsikaField) : Prop :=
  l.Pairwise rangesDisjoint

instance (l : List CorsikaField) : Decidable (disjointFields l) :=
  inferInstanceAs (Decidable (l.Pairwise rangesDisjoint))

theorem encodeU32LE_length (n : Nat) : (encodeU32LE n).length = 4 := rfl

/-- Reading exactly the next `chunk` of the stream. -/
theorem read_exact (d chunk tail : Bytes) (pos n : Nat)
    (hpos : d.drop pos = chunk ++ tail) (hn : n = chunk.length) :
    Handle.read ⟨d, pos⟩ n = (chunk, ⟨d, pos + n⟩) := by
  subst hn
  simp [Handle.read, hpos, List.take_left]

/-- Reading past the end of the stream: everything left comes back. -/
theorem read_short (d tail : Bytes) (pos n : Nat)
    (hpos : d.drop pos = tail) (hn : tail.length ≤ n) :
    Handle.read ⟨d, pos⟩ n = (tail, ⟨d, pos + tail.length⟩) := by
  simp [Handle.read, hpos, List.take_of_length_le hn]

/-- Stepping the cursor past a chunk that starts at `pos`. -/
theorem drop_step (d chunk tail : Bytes) (pos n : Nat)
    (hpos : d.drop pos = chunk ++ tail) (hn : n = chunk.length) :
    d.drop (pos + n) = tail := by
  subst hn
  rw [← List.drop_drop, hpos, List.drop_left]

theorem int32LE_encodeU32LE (n : Nat) (hn : n < 2 ^ 31) :
    int32LE (encodeU32LE n) = (n : Int) := by
  have h : n % 256 + 256 * (n / 256 % 256) + 65536 * (n / 65536 % 256)
      + 16777216 * (n / 16777216 % 256) = n := by omega
  simp only [int32LE, encodeU32LE]
  rw [h, if_pos hn]

theorem sliceBlocks_ok (data : Bytes) :
    ∀ n i, (i + n) * BLOCK_SIZE_BYTES ≤ data.length →
      sliceBlocks data i n = (chunksFrom data i n, false) := by
  intro n
  induction n with
  | zero => intro i _; rfl
  | succ m ih =>
    intro i hle
    have hi : (i + 1) * BLOCK_SIZE_BYTES ≤ data.length :=
      le_trans (Nat.mul_le_mul_right _ (by omega)) hle
    have hfull : ((data.drop (i * BLOCK_SIZE_BYTES)).take BLOCK_SIZE_BYTES).length
        = BLOCK_SIZE_BYTES := by
      simp only [List.length_take, List.length_drop]
      have : (i + 1) * BLOCK_SIZE_BYTES = i * BLOCK_SIZE_BYTES + BLOCK_SIZE_BYTES := by ring
      omega
    have hrec := ih (i + 1)
      (by have h2 : i + 1 + m = i + (m + 1) := by ring
          rw [h2]; exact hle)
    simp only [sliceBlocks, chunksFrom]
    rw [if_neg (by omega)]
    simp [hrec]

theorem chunksFrom_length (data : Bytes) :
    ∀ n i, (chunksFrom data i n).length = n := by
  intro n
  induction n with
  | zero => intro i; rfl
  | succ m ih => intro i; simp [chunksFrom, ih]

theorem chunksFrom_mem (data : Bytes) :
    ∀ n i, (i + n) * BLOCK_SIZE_BYTES ≤ data.length →
      ∀ b ∈ chunksFrom data i n, b.length = BLOCK_SIZE_BYTES := by
  intro n
  induction n with
  | zero => intro i _ b hb; simp [chunksFrom] at hb
  | succ m ih =>
    intro i hle b hb
    have hi : (i + 1) * BLOCK_SIZE_BYTES ≤ data.length :=
      le_trans (Nat.mul_le_mul_right _ (by omega)) hle
    simp only [chunksFrom, List.mem_cons] at hb
    rcases hb with hb | hb
    · subst hb
      simp only [List.length_take, List.length_drop]
      have : (i + 1) * BLOCK_SIZE_BYTES = i * BLOCK_SIZE_BYTES + BLOCK_SIZE_BYTES := by ring
      omega
    · refine ih (i + 1) ?_ b hb
      have h2 : i + 1 + m = i + (m + 1) := by ring
      rw [h2]; exact hle

theorem sliceBlocks_mem (data : Bytes) :
    ∀ n i, ∀ b ∈ (sliceBlocks data i n).1, b.length = BLOCK_SIZE_BYTES := by
  intro n
  induction n with
  | zero => intro i b hb; simp [sliceBlocks] at hb
  | succ m ih =>
    intro i b hb
    by_cases hc : ((data.drop (i * BLOCK_SIZE_BYTES)).take BLOCK_SIZE_BYTES).length
        < BLOCK_SIZE_BYTES
    · simp only [sliceBlocks, if_pos hc] at hb
      simp at hb
    · simp only [sliceBlocks, if_neg hc, List.mem_cons] at hb
      rcases hb with hb | hb
      · subst hb
        have hle := List.length_take_le BLOCK_SIZE_BYTES (data.drop (i * BLOCK_SIZE_BYTES))
        omega
      · exact ih (i + 1) b hb

theorem loopIter_eof (b0 : Int) (h : Handle) (hp : h.data.length ≤ h.pos) :
    loopIter true b0 h = Except.error [] := by
  obtain ⟨d, pos⟩ := h
  simp only [Handle.data, Handle.pos] at hp
  simp [loopIter, Handle.read, List.drop_eq_nil_of_le hp]

/-- One loop pass over a complete record starting at `pos`: the prefix
marker is read and decoded, the payload is read and sliced, the trailing
marker is consumed, and the pass succeeds. -/
theorem loopIter_record (d p rest : Bytes) (pos : Nat) (b0 : Int)
    (hp : p.length < 2 ^ 31) (hpos : d.drop pos = encodeRecord p ++ rest) :
    loopIter true b0 ⟨d, pos⟩
      = Except.ok (payloadChunks p, (p.length : Int), ⟨d, pos + 4 + p.length + 4⟩) := by
  have hpos1 : d.drop pos = encodeU32LE p.length ++ (p ++ (encodeU32LE p.length ++ rest)) := by
    rw [hpos]; simp [encodeRecord, List.append_assoc]
  have hr1 := read_exact d (encodeU32LE p.length) (p ++ (encodeU32LE p.length ++ rest)) pos 4
    hpos1 (encodeU32LE_length p.length).symm
  have hpos2 : d.drop (pos + 4) = p ++ (encodeU32LE p.length ++ rest) :=
    drop_step d (encodeU32LE p.length) _ pos 4 hpos1 (encodeU32LE_length p.length).symm
  have hr2 := read_exact d p (encodeU32LE p.length ++ rest) (pos + 4) p.length hpos2 rfl
  have hpos3 : d.drop (pos + 4 + p.length) = encodeU32LE p.length ++ rest :=
    drop_step d p _ (pos + 4) p.length hpos2 rfl
  have hr3 := read_exact d (encodeU32LE p.length) rest (pos + 4 + p.length) 4 hpos3
    (encodeU32LE_length p.length).symm
  have hsl := sliceBlocks_ok p (p.length / BLOCK_SIZE_BYTES) 0
    (by simpa using Nat.div_mul_le_self p.length BLOCK_SIZE_BYTES)
  have hneg : ¬ ((p.length : Int) < 0) := not_lt.mpr (Int.natCast_nonneg _)
  have hdec : int32LE (encodeU32LE p.length) = (p.length : Int) :=
    int32LE_encodeU32LE _ hp
  simp only [loopIter]
  simp [hr1, hdec, Handle.readInt, hneg, hr2, hsl, hr3, payloadChunks, encodeU32LE_length]

/-- The length of a record on disk. -/
theorem encodeRecord_length (p : Bytes) :
    (encodeRecord p).length = 4 + p.length + 4 := by
  simp [encodeRecord, encodeU32LE_length]
  omega

theorem iterLoop_records (rs : List Bytes) :
    ∀ fuel d pos b0, rs.length < fuel → (∀ p ∈ rs, p.length < 2 ^ 31) →
      d.drop pos = encodeRecords rs →
      iterLoop true fuel b0 ⟨d, pos⟩ = Outcome.err ((rs.map payloadChunks).flatten) := by
  induction rs with
  | nil =>
    intro fuel d pos b0 hf _ hpos
    obtain ⟨f, rfl⟩ : ∃ f, fuel = f + 1 := ⟨fuel - 1, by omega⟩
    have hend : loopIter true b0 ⟨d, pos⟩ = Except.error [] := by
      apply loopIter_eof
      have : d.drop pos = [] := hpos
      simpa using List.drop_eq_nil_iff.mp this
    simp [iterLoop, hend]
  | cons p rs ih =>
    intro fuel d pos b0 hf hl hpos
    obtain ⟨f, rfl⟩ : ∃ f, fuel = f + 1 := ⟨fuel - 1, by omega⟩
    have hpos' : d.drop pos = encodeRecord p ++ encodeRecords rs := hpos
    have hstep := loopIter_record d p (encodeRecords rs) pos b0 (hl p (by simp)) hpos'
    have hnext : d.drop (pos + 4 + p.length + 4) = encodeRecords rs := by
      have h4 : pos + 4 + p.length + 4 = pos + (encodeRecord p).length := by
        rw [encodeRecord_length]; omega
      rw [h4]
      exact drop_step d (encodeRecord p) _ pos _ hpos' rfl
    have hrec := ih f d (pos + 4 + p.length + 4) (p.length : Int)
      (by simp at hf; omega) (fun q hq => hl q (by simp [hq])) hnext
    simp only [encodeRecords, iterLoop, hstep, hrec]
    simp

theorem iter_blocks_fortran (fuel : Nat) (d : Bytes) (hr : d.take 4 ≠ RUNH) :
    iter_blocks fuel ⟨d, 0⟩ = iterLoop true fuel ((DEFAULT_BUFFER_SIZE : Int)) ⟨d, 0⟩ := by
  simp [iter_blocks, Handle.read, Handle.seek, hr]

theorem iter_blocks_raw (fuel : Nat) (d : Bytes) (hr : d.take 4 = RUNH) :
    iter_blocks fuel ⟨d, 0⟩ = iterLoop false fuel ((DEFAULT_BUFFER_SIZE : Int)) ⟨d, 0⟩ := by
  simp [iter_blocks, Handle.read, Handle.seek, hr]

theorem loopIter_raw (b0 : Int) (h : Handle) :
    loopIter false b0 h
      = Except.ok (chunksFrom (h.readInt b0).1 0 ((h.readInt b0).1.length / BLOCK_SIZE_BYTES),
          b0, (h.readInt b0).2) := by
  have hsl := sliceBlocks_ok (h.readInt b0).1 ((h.readInt b0).1.length / BLOCK_SIZE_BYTES) 0
    (by simpa using Nat.div_mul_le_self (h.readInt b0).1.length BLOCK_SIZE_BYTES)
  simp [loopIter, hsl]

theorem iterLoop_raw (fuel : Nat) :
    ∀ b0 h, ∃ blks, iterLoop false fuel b0 h = Outcome.more blks
      ∧ ∀ x ∈ blks, x.length = BLOCK_SIZE_BYTES := by
  induction fuel with
  | zero => intro b0 h; exact ⟨[], rfl, by simp⟩
  | succ n ih =>
    intro b0 h
    obtain ⟨blks, hb, hlen⟩ := ih b0 (h.readInt b0).2
    refine ⟨chunksFrom (h.readInt b0).1 0 ((h.readInt b0).1.length / BLOCK_SIZE_BYTES) ++ blks,
      ?_, ?_⟩
    · simp [iterLoop, loopIter_raw, hb]
    · intro x hx
      rcases List.mem_append.mp hx with hx | hx
      · exact chunksFrom_mem _ _ _
          (by simpa using Nat.div_mul_le_self (h.readInt b0).1.length BLOCK_SIZE_BYTES) x hx
      · exact hlen x hx

/-- A payload of exactly one block slices into just itself. -/
theorem payloadChunks_single (p : Bytes) (hp : p.length = BLOCK_SIZE_BYTES) :
    payloadChunks p = [p] := by
  have hB : 0 < BLOCK_SIZE_BYTES := by decide
  have h1 : p.length / BLOCK_SIZE_BYTES = 1 := by rw [hp]; exact Nat.div_self hB
  simp [payloadChunks, h1, chunksFrom, List.take_of_length_le (le_of_eq hp)]

/-- **C1** (code_bug evidence).  The claim says iterating a well-formed
raw-framed stream (`RUNH` first, size `k * BLOCK_SIZE_BYTES`) yields `k`
blocks and then ends cleanly.  In this source the raw-mode loop has no
exit at all: for every fuel the iteration is still running
(`Outcome.more`), never a clean end and never an error — reaching
end-of-stream it keeps reading 0 bytes forever. -/
theorem C1_raw_wellformed_never_terminates (d : Bytes) (k : Nat)
    (h4 : d.take 4 = RUNH) (hlen : d.length = k * BLOCK_SIZE_BYTES) (fuel : Nat) :
    ∃ blks, iter_blocks fuel ⟨d, 0⟩ = Outcome.more blks := by
  rw [iter_blocks_raw fuel d h4]
  obtain ⟨blks, hb, _⟩ := iterLoop_raw fuel ((DEFAULT_BUFFER_SIZE : Int)) ⟨d, 0⟩
  exact ⟨blks, hb⟩

theorem C1_witness :
    (RUNH ++ List.replicate 1088 0).take 4 = RUNH
    ∧ (RUNH ++ List.replicate 1088 0).length = 1 * BLOCK_SIZE_BYTES
    ∧ ∃ blks, iter_blocks 3 ⟨RUNH ++ List.replicate 1088 0, 0⟩ = Outcome.more blks :=
  ⟨by simp [RUNH], by simp [RUNH, BLOCK_SIZE_BYTES],
    C1_raw_wellformed_never_terminates (RUNH ++ List.replicate 1088 0) 1 (by simp [RUNH])
      (by simp [RUNH, BLOCK_SIZE_BYTES]) 3⟩

/-- **C3** (code_bug evidence).  The claim says a raw-framed stream cut
short by `1 … BLOCK_SIZE_BYTES - 1` bytes raises a truncation error on the
last step.  In this source raw mode never errors: the floor division
drops the partial trailing block silently (the short-block check is dead
code), and the loop then runs forever.  The second half of the claim — no
short block is ever yielded — does hold. -/
theorem C3_truncated_raw_never_raises (d : Bytes) (k n : Nat)
    (h4 : d.take 4 = RUNH) (hn1 : 1 ≤ n) (hn2 : n ≤ BLOCK_SIZE_BYTES - 1)
    (hlen : d.length + n = k * BLOCK_SIZE_BYTES) (fuel : Nat) :
    ∃ blks, iter_blocks fuel ⟨d, 0⟩ = Outcome.more blks
      ∧ ∀ b ∈ blks, b.length = BLOCK_SIZE_BYTES := by
  rw [iter_blocks_raw fuel d h4]
  exact iterLoop_raw fuel _ _

theorem C3_witness :
    (RUNH ++ List.replicate 2172 0).take 4 = RUNH
    ∧ 1 ≤ 8 ∧ 8 ≤ BLOCK_SIZE_BYTES - 1
    ∧ (RUNH ++ List.replicate 2172 0).length + 8 = 2 * BLOCK_SIZE_BYTES
    ∧ ∃ blks, iter_blocks 3 ⟨RUNH ++ List.replicate 2172 0, 0⟩ = Outcome.more blks
        ∧ ∀ b ∈ blks, b.length = BLOCK_SIZE_BYTES :=
  ⟨by simp [RUNH], by decide, by decide, by simp [RUNH, BLOCK_SIZE_BYTES],
    C3_truncated_raw_never_raises (RUNH ++ List.replicate 2172 0) 2 8 (by simp [RUNH])
      (by decide) (by decide) (by simp [RUNH, BLOCK_SIZE_BYTES]) 3⟩

/-- The first four bytes of a record-framed stream are the first record's
length marker. -/
theorem take4_record (p rest : Bytes) :
    (encodeRecord p ++ rest).take 4 = encodeU32LE p.length := by
  have h : encodeRecord p ++ rest
      = encodeU32LE p.length ++ (p ++ (encodeU32LE p.length ++ rest)) := by
    simp [encodeRecord, List.append_assoc]
  rw [h, show (4 : Nat) = (encodeU32LE p.length).length from rfl, List.take_left]

/-- **C2** (code_bug evidence).  The claim says a zero-byte read of the
record-length prefix ends the sequence cleanly, and the concrete
well-formed one-record file of payload `BLOCK_SIZE_BYTES` yields one
block and ends cleanly.  In this source the prefix-read check
`len(data) < 4` has no zero-byte escape, so the iteration yields the one
block and then *raises* `IOError` at the next prefix read. -/
theorem C2_record_clean_eof_raises (fuel : Nat) :
    iter_blocks (fuel + 2) ⟨encodeRecords [List.replicate BLOCK_SIZE_BYTES 7], 0⟩
      = Outcome.err [List.replicate BLOCK_SIZE_BYTES 7] := by
  have hlp : ∀ q ∈ [List.replicate BLOCK_SIZE_BYTES 7], q.length < 2 ^ 31 := by
    intro q hq
    simp only [List.mem_singleton] at hq
    subst hq
    simp only [List.length_replicate]
    decide
  have hne : (encodeRecords [List.replicate BLOCK_SIZE_BYTES 7]).take 4 ≠ RUNH := by
    rw [show encodeRecords [List.replicate BLOCK_SIZE_BYTES 7]
          = encodeRecord (List.replicate BLOCK_SIZE_BYTES 7) ++ [] from rfl,
        take4_record, List.length_replicate]
    decide
  rw [iter_blocks_fortran _ _ hne]
  have hrun := iterLoop_records [List.replicate BLOCK_SIZE_BYTES 7] (fuel + 2)
    (encodeRecords [List.replicate BLOCK_SIZE_BYTES 7]) 0 ((DEFAULT_BUFFER_SIZE : Int))
    (by simp) hlp rfl
  rw [hrun]
  simp [payloadChunks_single]

/-- **C7** (confirmed).  For a well-formed record-framed stream the
iteration yields the records' blocks in on-disk order grouped
record-by-record, each of length exactly `BLOCK_SIZE_BYTES`, and the
total count is the sum over records of `⌊L / BLOCK_SIZE_BYTES⌋`.  (The
final outcome is the `IOError` raise of this source at end-of-stream —
that is C2's business, not claimed here.) -/
theorem C7_record_framed_yields (rs : List Bytes) (fuel : Nat)
    (hf : rs.length < fuel)
    (hl : ∀ p ∈ rs, p.length < 2 ^ 31)
    (hr : (encodeRecords rs).take 4 ≠ RUNH) :
    iter_blocks fuel ⟨encodeRecords rs, 0⟩ = Outcome.err ((rs.map payloadChunks).flatten)
    ∧ ((rs.map payloadChunks).flatten).length
        = (rs.map (fun p => p.length / BLOCK_SIZE_BYTES)).sum
    ∧ ∀ b ∈ (rs.map payloadChunks).flatten, b.length = BLOCK_SIZE_BYTES := by
  refine ⟨?_, ?_, ?_⟩
  · rw [iter_blocks_fortran _ _ hr]
    exact iterLoop_records rs fuel _ 0 _ hf hl rfl
  · rw [List.length_flatten, List.map_map]
    have hc : List.length ∘ payloadChunks = fun p : Bytes => p.length / BLOCK_SIZE_BYTES := by
      funext p
      simp [Function.comp, payloadChunks, chunksFrom_length]
    rw [hc]
  · intro b hb
    rw [List.mem_flatten] at hb
    obtain ⟨l, hl1, hb⟩ := hb
    rw [List.mem_map] at hl1
    obtain ⟨p, hp, rfl⟩ := hl1
    exact chunksFrom_mem p _ 0
      (by simpa using Nat.div_mul_le_self p.length BLOCK_SIZE_BYTES) b hb

theorem C7_witness :
    iter_blocks 2 ⟨encodeRecords [List.replicate BLOCK_SIZE_BYTES 55], 0⟩
        = Outcome.err (([List.replicate BLOCK_SIZE_BYTES 55].map payloadChunks).flatten)
    ∧ (([List.replicate BLOCK_SIZE_BYTES 55].map payloadChunks).flatten).length
        = ([List.replicate BLOCK_SIZE_BYTES 55].map
            (fun p => p.length / BLOCK_SIZE_BYTES)).sum
    ∧ ∀ b ∈ ([List.replicate BLOCK_SIZE_BYTES 55].map payloadChunks).flatten,
        b.length = BLOCK_SIZE_BYTES :=
  C7_record_framed_yields [List.replicate BLOCK_SIZE_BYTES 55] 2 (by simp)
    (by
      intro q hq
      simp only [List.mem_singleton] at hq
      subst hq
      simp only [List.length_replicate]
      decide)
    (by
      rw [show encodeRecords [List.replicate BLOCK_SIZE_BYTES 55]
            = encodeRecord (List.replicate BLOCK_SIZE_BYTES 55) ++ [] from rfl,
        take4_record, List.length_replicate]
      decide)

/-- One loop pass over a final record whose trailing marker is cut short
(`sfx` holds fewer than 4 bytes): the pass still succeeds — the result of
the trailing-marker read is discarded without inspection. -/
theorem loopIter_record_short_suffix (d p sfx : Bytes) (pos : Nat) (b0 : Int)
    (hp : p.length < 2 ^ 31) (hs : sfx.length < 4)
    (hpos : d.drop pos = encodeU32LE p.length ++ (p ++ sfx)) :
    loopIter true b0 ⟨d, pos⟩
      = Except.ok (payloadChunks p, (p.length : Int),
          ⟨d, pos + 4 + p.length + sfx.length⟩) := by
  have hr1 := read_exact d (encodeU32LE p.length) (p ++ sfx) pos 4 hpos
    (encodeU32LE_length p.length).symm
  have hpos2 : d.drop (pos + 4) = p ++ sfx :=
    drop_step d (encodeU32LE p.length) _ pos 4 hpos (encodeU32LE_length p.length).symm
  have hr2 := read_exact d p sfx (pos + 4) p.length hpos2 rfl
  have hpos3 : d.drop (pos + 4 + p.length) = sfx := drop_step d p _ (pos + 4) p.length hpos2 rfl
  have hr3 := read_short d sfx (pos + 4 + p.length) 4 hpos3 (by omega)
  have hsl := sliceBlocks_ok p (p.length / BLOCK_SIZE_BYTES) 0
    (by simpa using Nat.div_mul_le_self p.length BLOCK_SIZE_BYTES)
  have hneg : ¬ ((p.length : Int) < 0) := not_lt.mpr (Int.natCast_nonneg _)
  have hdec : int32LE (encodeU32LE p.length) = (p.length : Int) :=
    int32LE_encodeU32LE _ hp
  simp only [loopIter]
  simp [hr1, hdec, Handle.readInt, hneg, hr2, hsl, hr3, payloadChunks, encodeU32LE_length]

/-- **C10** (confirmed).  After yielding a record's payload blocks the
iterator reads the 4-byte trailing marker without inspecting the result:
with the suffix missing or shorter than 4 bytes that loop pass raises no
error (it returns successfully), and the truncation only surfaces as the
error raised by the next pass's read of the following record-length
prefix. -/
theorem C10_trailing_marker_unchecked (p sfx : Bytes)
    (hp : p.length < 2 ^ 31) (hs : sfx.length < 4)
    (hm : encodeU32LE p.length ≠ RUNH) :
    loopIter true ((DEFAULT_BUFFER_SIZE : Int))
        ⟨encodeU32LE p.length ++ (p ++ sfx), 0⟩
      = Except.ok (payloadChunks p, (p.length : Int),
          ⟨encodeU32LE p.length ++ (p ++ sfx), 4 + p.length + sfx.length⟩)
    ∧ ∀ fuel, iter_blocks (fuel + 2) ⟨encodeU32LE p.length ++ (p ++ sfx), 0⟩
        = Outcome.err (payloadChunks p) := by
  have hstep := loopIter_record_short_suffix (encodeU32LE p.length ++ (p ++ sfx)) p sfx 0
    ((DEFAULT_BUFFER_SIZE : Int)) hp hs rfl
  have hstep' : loopIter true ((DEFAULT_BUFFER_SIZE : Int))
      ⟨encodeU32LE p.length ++ (p ++ sfx), 0⟩
      = Except.ok (payloadChunks p, (p.length : Int),
          ⟨encodeU32LE p.length ++ (p ++ sfx), 4 + p.length + sfx.length⟩) := by
    simpa using hstep
  refine ⟨hstep', ?_⟩
  intro fuel
  have hlen : (encodeU32LE p.length ++ (p ++ sfx)).length = 4 + (p.length + sfx.length) := by
    simp [encodeU32LE_length]
  have hne : (encodeU32LE p.length ++ (p ++ sfx)).take 4 ≠ RUNH := by
    rw [show (4 : Nat) = (encodeU32LE p.length).length from rfl, List.take_left]
    exact hm
  rw [iter_blocks_fortran _ _ hne]
  have heof : loopIter true ((p.length : Int))
      ⟨encodeU32LE p.length ++ (p ++ sfx), 4 + p.length + sfx.length⟩
      = Except.error [] := by
    apply loopIter_eof
    dsimp only
    rw [hlen]
    omega
  simp [iterLoop, hstep', heof]

theorem C10_witness :
    loopIter true ((DEFAULT_BUFFER_SIZE : Int)) ⟨[0, 0, 0, 0], 0⟩
        = Except.ok ([], 0, ⟨[0, 0, 0, 0], 4⟩)
    ∧ iter_blocks 2 ⟨[0, 0, 0, 0], 0⟩ = Outcome.err [] := by
  have h := C10_trailing_marker_unchecked [] [] (by decide) (by decide) (by decide)
  constructor
  · have h1 := h.1
    simpa [encodeU32LE, payloadChunks, chunksFrom] using h1
  · have h2 := h.2 0
    simpa [encodeU32LE, payloadChunks, chunksFrom] using h2

/-- **C8** (confirmed).  With a record size supplied, `read_block` skips
the 4-byte leading marker at position 0, skips exactly the 8 marker bytes
when `(position + 4) % (record_size + 8) == 0`, otherwise skips nothing,
and then reads exactly `BLOCK_SIZE_BYTES` bytes as the Block, raising a
truncation error when fewer are available — i.e. it equals the
spec-side model of that description on every handle. -/
theorem C8_read_block_boundary_skips (h : Handle) (record_size : Nat) :
    read_block h (some record_size) = read_block_spec_model h record_size := by
  obtain ⟨d, p⟩ := h
  by_cases hp : p = 0
  · subst hp
    have hm4 : ¬ (4 % (record_size + 8) = 0) := by
      rw [Nat.mod_eq_of_lt (by omega)]
      omega
    by_cases hc : BLOCK_SIZE_BYTES ⊓ (d.length - 4) < BLOCK_SIZE_BYTES
    · simp [read_block, read_block_spec_model, Handle.tell, Handle.seek, Handle.read,
        List.length_take, List.length_drop, hm4, hc]
    · simp [read_block, read_block_spec_model, Handle.tell, Handle.seek, Handle.read,
        List.length_take, List.length_drop, hm4, hc]
      omega
  · by_cases hm : (p + 4) % (record_size + 8) = 0
    · by_cases hlong : p + 8 ≤ d.length
      · have h8 : 8 ⊓ (d.length - p) = 8 := by omega
        by_cases hc : BLOCK_SIZE_BYTES ⊓ (d.length - (p + 8)) < BLOCK_SIZE_BYTES
        · simp [read_block, read_block_spec_model, Handle.tell, Handle.seek, Handle.read,
            List.length_take, List.length_drop, hp, hm, h8, hc]
        · simp [read_block, read_block_spec_model, Handle.tell, Handle.seek, Handle.read,
            List.length_take, List.length_drop, hp, hm, h8, hc]
          omega
      · have hB : BLOCK_SIZE_BYTES = 1092 := by decide
        have hc1 : BLOCK_SIZE_BYTES ⊓ (d.length - (p + 8 ⊓ (d.length - p)))
            < BLOCK_SIZE_BYTES := by omega
        have hc2 : BLOCK_SIZE_BYTES ⊓ (d.length - (p + 8)) < BLOCK_SIZE_BYTES := by omega
        simp [read_block, read_block_spec_model, Handle.tell, Handle.seek, Handle.read,
          List.length_take, List.length_drop, hp, hm, hc1, hc2]
    · simp [read_block, read_block_spec_model, Handle.tell, Handle.seek, Handle.read,
        List.length_take, List.length_drop, hp, hm]
      by_cases hc : d.length - p < BLOCK_SIZE_BYTES
      · simp [hc]
      · simp [hc]
        omega

/-- **C4** counterexample.  The claim says an empty file is classified as
Plain without any error; in this source `is_gzip` indexes
`marker_bytes[0]` on the empty read, so `open_compressed` raises
`IndexError` instead. -/
theorem C4_counterexample : open_compressed [] = Except.error () := rfl

/-- **C4** as amended.  For every file that has at least 2 bytes, or
exactly 1 byte different from `0x1F`, and whose leading bytes match
neither the gzip nor the zstd magic, classification treats the file as
Plain and `open_compressed` returns a plain reader without raising.  (An
empty file, or a 1-byte file equal to `0x1F`, instead raises an
`IndexError` from the gzip check — the counterexample above.) -/
theorem C4_amended_plain_fallback (file : Bytes)
    (hlen : 2 ≤ file.length ∨ (file.length = 1 ∧ file.take 1 ≠ [0x1f]))
    (hg : file.take 2 ≠ [0x1f, 0x8b])
    (hz : file.take 4 ≠ [0x28, 0xb5, 0x2f, 0xfd]) :
    open_compressed file = Except.ok Reader.plainReader := by
  match file, hlen with
  | [], hlen => simp at hlen
  | [a], hlen =>
    have ha : ¬ (a = 0x1f) := by
      rcases hlen with h | ⟨_, h⟩
      · simp at h
      · simpa using h
    have hz1 : ¬ (List.take 4 [a] = [0x28, 0xb5, 0x2f, 0xfd]) := hz
    simp [open_compressed, is_gzip, is_zstd, ha, hz1]
  | a :: b :: rest, hlen =>
    have hz2 : ¬ ((a :: b :: rest).take 4 = [0x28, 0xb5, 0x2f, 0xfd]) := hz
    by_cases ha : a = 0x1f
    · subst ha
      have hb : ¬ (b = 0x8b) := by
        intro hb
        subst hb
        exact hg rfl
      simp [open_compressed, is_gzip, is_zstd, hb, hz2]
    · simp [open_compressed, is_gzip, is_zstd, ha, hz2]
      intro h1 h2 h3
      exact hz2 (by simp [h1, h2, h3])

theorem C4_witness : open_compressed [0, 0] = Except.ok Reader.plainReader :=
  C4_amended_plain_fallback [0, 0] (Or.inl (by decide)) (by decide) (by decide)

/-- Version 8 is not a key of the table as initialized. -/
theorem dictGet_init_8 : dictGet event_header_types_init 8 = none := by
  norm_num [dictGet, event_header_types_init]

/-- **C5** counterexample.  The claim says no sequence of lookups mutates
the version table; but `event_header_types` is a `defaultdict`, so a
single lookup of the absent version 8 inserts a new key: the key set
afterwards differs from the key set at initialization. -/
theorem C5_counterexample :
    ((eh_types_getitem event_header_types_init 8).2.2).map Prod.fst
      ≠ event_header_types_init.map Prod.fst := by
  intro hcontra
  have hlen := congrArg List.length hcontra
  simp [eh_types_getitem, dictGet_init_8] at hlen

/-- **C5** as amended.  A lookup of a version present in the table leaves
the table unchanged (and never alters any existing binding); a lookup of
an absent version appends exactly that version as a new key, bound to the
7.7 fallback layout. -/
theorem C5_amended_insert_on_miss (d : List (VKey × Dtype)) (k : VKey) :
    (eh_types_getitem d k).2.2
      = if (dictGet d k).isSome then d else d ++ [(k, event_header_dtype_77xxx)] := by
  cases h : dictGet d k <;> simp [eh_types_getitem, h]

/-- **C6** counterexample.  The claim says each lookup of a version absent
from the Schema Version Table emits exactly one advisory warning; but the
`defaultdict` caches the fallback on first miss, so the *second* lookup of
version 8 — still not a known version of the table as initialized —
emits zero warnings. -/
theorem C6_counterexample :
    dictGet event_header_types_init 8 = none
    ∧ ((eh_types_getitem ((eh_types_getitem event_header_types_init 8).2.2) 8).2.1).length
        = 0 := by
  refine ⟨dictGet_init_8, ?_⟩
  have hd1 : (eh_types_getitem event_header_types_init 8).2.2
      = event_header_types_init ++ [(8, event_header_dtype_77xxx)] := by
    simp [eh_types_getitem, dictGet_init_8]
  rw [hd1]
  have h8 : dictGet (event_header_types_init ++ [(8, event_header_dtype_77xxx)]) 8
      = some event_header_dtype_77xxx := by
    norm_num [dictGet, event_header_types_init]
  simp [eh_types_getitem, h8]

/-- **C6** as amended.  A lookup of a version absent from the table *at
lookup time* returns the same layout as the lookup of the latest known
version 7.7 and emits exactly one advisory warning; a repeated lookup of
a previously seen unknown version instead returns the cached layout
silently (covered by the C5 correction). -/
theorem C6_amended_fallback (d : List (VKey × Dtype)) (k : VKey)
    (h : dictGet d k = none) :
    (eh_types_getitem d k).1 = (eh_types_getitem event_header_types_init 7.7).1
    ∧ ((eh_types_getitem d k).2.1).length = 1 := by
  have h77 : dictGet event_header_types_init 7.7 = some event_header_dtype_76xxx := by
    norm_num [dictGet, event_header_types_init]
  constructor
  · simp only [eh_types_getitem, h, h77]
    rfl
  · simp [eh_types_getitem, h]

theorem C6_witness :
    (eh_types_getitem event_header_types_init 8).1
        = (eh_types_getitem event_header_types_init 7.7).1
    ∧ ((eh_types_getitem event_header_types_init 8).2.1).length = 1 :=
  C6_amended_fallback event_header_types_init 8 dictGet_init_8

/-- **C9** (confirmed).  The per-version event-header field lists are
cumulative — each later version's list extends each earlier one by
appending fields, never removing or repositioning any — across versions
6.5, 7.3, 7.4 and 7.5, and within every one of those lists the fields'
element ranges are pairwise disjoint. -/
theorem C9_cumulative_disjoint :
    (∃ t, event_header_fields_73 = event_header_fields_65 ++ t)
    ∧ (∃ t, event_header_fields_74 = event_header_fields_73 ++ t)
    ∧ (∃ t, event_header_fields_75 = event_header_fields_74 ++ t)
    ∧ (∃ t, event_header_fields_74 = event_header_fields_65 ++ t)
    ∧ (∃ t, event_header_fields_75 = event_header_fields_65 ++ t)
    ∧ (∃ t, event_header_fields_75 = event_header_fields_73 ++ t)
    ∧ disjointFields event_header_fields_65
    ∧ disjointFields event_header_fields_73
    ∧ disjointFields event_header_fields_74
    ∧ disjointFields event_header_fields_75 := by
  obtain ⟨t1, e1⟩ : ∃ t, event_header_fields_73 = event_header_fields_65 ++ t := ⟨_, rfl⟩
  obtain ⟨t2, e2⟩ : ∃ t, event_header_fields_74 = event_header_fields_73 ++ t :=
    ⟨[], (List.append_nil _).symm⟩
  obtain ⟨t3, e3⟩ : ∃ t, event_header_fields_75 = event_header_fields_74 ++ t := ⟨_, rfl⟩
  refine ⟨⟨t1, e1⟩, ⟨t2, e2⟩, ⟨t3, e3⟩,
    ⟨t1 ++ t2, by rw [e2, e1, List.append_assoc]⟩,
    ⟨t1 ++ (t2 ++ t3), by rw [e3, e2, e1]; simp [List.append_assoc]⟩,
    ⟨t2 ++ t3, by rw [e3, e2, List.append_assoc]⟩, ?_, ?_, ?_, ?_⟩
  · decide
  · decide
  · decide
  · decide
